import Mathlib

/-!
Verification of the retirement-portfolio tracker (`app.py`).

The Flask handlers are embedded shallowly: Python floats become exact
rationals (`ℚ`), SQLite tables become insertion-ordered association
lists, the audit-log file becomes a list of text lines, and JSON bodies
become association lists of a small JSON value type.  Each definition
mirrors one function of `app.py`; the theorems at the end settle the
spec claims C1..C10.
-/

namespace Portfolio

/-- Python `s.ljust(w)`: pad with spaces on the right up to width `w`
(no-op when `s` is already at least that long). -/
def pyLjust (s : String) (w : Nat) : String :=
  s ++ String.mk (List.replicate (w - s.length) ' ')

/-- Round to the nearest integer, ties to even: the rounding used by
Python `%.f` formatting (on the exact rational value). -/
def rne (q : ℚ) : ℤ :=
  let f := ⌊q⌋
  let r := q - f
  if r < 1/2 then f
  else if r > 1/2 then f + 1
  else if f % 2 = 0 then f else f + 1

/-- Python `f"{v:.2f}"` for a nonnegative value: integer part, a dot,
then exactly two digits. -/
def fmt2nn (q : ℚ) : String :=
  let a := (rne (q * 100)).natAbs
  toString (a / 100) ++ "." ++ String.mk [Nat.digitChar (a / 10 % 10), Nat.digitChar (a % 10)]

/-- Python `f"{v:.2f}"`: sign handled separately so that small negative
values render as `-0.00`, as Python does. -/
def fmt2 (q : ℚ) : String :=
  if q < 0 then "-" ++ fmt2nn (-q) else fmt2nn q

/-- Python `f"{v:.1f}"` for a nonnegative value: integer part, a dot,
then exactly one digit. -/
def fmt1nn (q : ℚ) : String :=
  let a := (rne (q * 10)).natAbs
  toString (a / 10) ++ "." ++ String.mk [Nat.digitChar (a % 10)]

/-- Python `f"{v:.1f}"`. -/
def fmt1 (q : ℚ) : String :=
  if q < 0 then "-" ++ fmt1nn (-q) else fmt1nn q

/-- Python `s.strip()`: drop whitespace from both ends. -/
def pyStrip (s : String) : String :=
  String.mk (((s.data.dropWhile (·.isWhitespace)).reverse.dropWhile (·.isWhitespace)).reverse)

/-- Python `s.upper()` (per-character, as for the ASCII tickers the
app handles). -/
def pyUpper (s : String) : String :=
  String.mk (s.data.map Char.toUpper)

/-- Split a character list at every character satisfying `p`,
keeping empty pieces — the core of Python `str.split(sep)`. -/
def splitPredAux (p : Char → Bool) : List Char → List Char → List (List Char)
  | [], cur => [cur.reverse]
  | x :: xs, cur =>
      if p x then cur.reverse :: splitPredAux p xs []
      else splitPredAux p xs (x :: cur)

/-- Python `s.split(c)` for a one-character separator. -/
def pySplitChar (s : String) (c : Char) : List String :=
  (splitPredAux (· = c) s.data []).map String.mk

/-- Python `sep.join(parts)`. -/
def pyJoin (sep : String) : List String → String
  | [] => ""
  | [x] => x
  | x :: xs => x ++ sep ++ pyJoin sep xs

/-- Python `s.split(c, maxsplit)` for a one-character separator: only
the first `maxsplit` occurrences split; the rest stays in one piece. -/
def pySplitCharLimit (s : String) (c : Char) (maxsplit : Nat) : List String :=
  let ps := pySplitChar s c
  if ps.length ≤ maxsplit + 1 then ps
  else ps.take maxsplit ++ [pyJoin (String.mk [c]) (ps.drop maxsplit)]

/-- Python `s.split()` with no argument: split on whitespace, dropping
empty pieces. -/
def pySplitWs (s : String) : List String :=
  ((splitPredAux (·.isWhitespace) s.data []).map String.mk).filter (· ≠ "")

/-- One row of the `holdings` table (the columns the analytics use;
timestamps are irrelevant to every claim). -/
structure Holding where
  name : String
  ticker : String
  asset_type : String
  shares : ℚ
  cost_basis : ℚ
  current_value : ℚ
  purchase_date : String
  notes : String
deriving DecidableEq

/-- One step of the grouping loops in `portfolio_summary` and
`get_rebalance`: `by_type.setdefault(k, 0); by_type[k] += v` on an
insertion-ordered dict. -/
def addTo : List (String × ℚ) → String → ℚ → List (String × ℚ)
  | [], k, v => [(k, v)]
  | (k₁, v₁) :: rest, k, v =>
      if k₁ = k then (k₁, v₁ + v) :: rest else (k₁, v₁) :: addTo rest k v

/-- The `by_type` / `current` dict: group holdings by `asset_type`,
summing `current_value`, keys in first-appearance order. -/
def byType (hs : List Holding) : List (String × ℚ) :=
  hs.foldl (fun m h => addTo m h.asset_type h.current_value) []

/-- Python `current.get(atype, 0)` on the grouping dict. -/
def lookupD : List (String × ℚ) → String → ℚ
  | [], _ => 0
  | (k₁, v) :: rest, k => if k₁ = k then v else lookupD rest k

/-- One element of the `allocation` array in the summary response. -/
structure AllocationGroup where
  asset_type : String
  value : ℚ
  percentage : ℚ
deriving DecidableEq

/-- The `/api/portfolio/summary` response. -/
structure Summary where
  total_value : ℚ
  total_cost : ℚ
  gain_loss : ℚ
  gain_loss_pct : ℚ
  count : Nat
  allocation : List AllocationGroup
deriving DecidableEq

/-- The `portfolio_summary` handler, as a function of the holdings
rows.  `sorted(by_type.items())` compares pairs lexicographically; the
dict keys are distinct, so sorting by key is the same order. -/
def portfolio_summary (hs : List Holding) : Summary :=
  let total_value := (hs.map (·.current_value)).sum
  let total_cost := (hs.map (·.cost_basis)).sum
  let gain_loss := total_value - total_cost
  let gain_loss_pct := if total_cost ≠ 0 then gain_loss / total_cost * 100 else 0
  let allocation :=
    ((byType hs).mergeSort (fun a b => decide (a.1 ≤ b.1))).map fun p =>
      { asset_type := p.1
        value := p.2
        percentage := if total_value ≠ 0 then p.2 / total_value * 100 else 0 }
  { total_value := total_value
    total_cost := total_cost
    gain_loss := gain_loss
    gain_loss_pct := gain_loss_pct
    count := hs.length
    allocation := allocation }

/-- One row of the `target_allocations` table. -/
structure Target where
  asset_type : String
  target_percentage : ℚ
deriving DecidableEq

/-- One element of the `recommendations` array of `/api/rebalance`. -/
structure Recommendation where
  asset_type : String
  current_value : ℚ
  current_pct : ℚ
  target_pct : ℚ
  target_value : ℚ
  difference : ℚ
  action : String
deriving DecidableEq

/-- The action expression of `get_rebalance`:
`"Buy" if diff > 1 else "Sell" if diff < -1 else "Hold"`. -/
def actionOf (diff : ℚ) : String :=
  if diff > 1 then "Buy" else if diff < -1 then "Sell" else "Hold"

/-- The body of the `for t in targets` loop of `get_rebalance`. -/
def recOf (total_value : ℚ) (current : List (String × ℚ)) (t : Target) : Recommendation :=
  let curr_val := lookupD current t.asset_type
  let curr_pct := if total_value ≠ 0 then curr_val / total_value * 100 else 0
  let target_val := total_value * t.target_percentage / 100
  let diff := target_val - curr_val
  { asset_type := t.asset_type
    current_value := curr_val
    current_pct := curr_pct
    target_pct := t.target_percentage
    target_value := target_val
    difference := diff
    action := actionOf diff }

/-- The `/api/rebalance` response. -/
structure RebalanceResult where
  total_value : ℚ
  recommendations : List Recommendation
deriving DecidableEq

/-- The `get_rebalance` handler, as a function of the two tables. -/
def get_rebalance (hs : List Holding) (ts : List Target) : RebalanceResult :=
  let total_value := (hs.map (·.current_value)).sum
  let current := byType hs
  let recs := ts.map (recOf total_value current)
  { total_value := total_value
    recommendations := recs.mergeSort fun a b => decide (a.asset_type ≤ b.asset_type) }

/-- The recommendation row exactly as the spec describes it, for the C2
refinement: per-type current value as a filtered sum, the stated
percentage and difference formulas. -/
def specRecommendation (hs : List Holding) (t : Target) : Recommendation :=
  let total_value := (hs.map (·.current_value)).sum
  let curr_val := ((hs.filter fun h => h.asset_type = t.asset_type).map (·.current_value)).sum
  { asset_type := t.asset_type
    current_value := curr_val
    current_pct := if total_value = 0 then 0 else curr_val / total_value * 100
    target_pct := t.target_percentage
    target_value := total_value * t.target_percentage / 100
    difference := total_value * t.target_percentage / 100 - curr_val
    action := actionOf (total_value * t.target_percentage / 100 - curr_val) }

/-- The SQL upsert of `update_allocations`: overwrite the percentage of
an existing `asset_type` row in place, else append a new row. -/
def upsert : List (String × ℚ) → String → ℚ → List (String × ℚ)
  | [], k, v => [(k, v)]
  | (k₁, v₁) :: rest, k, v =>
      if k₁ = k then (k₁, v) :: rest else (k₁, v₁) :: upsert rest k v

/-- Read a `target_allocations` row by its unique `asset_type` key. -/
def lookupAlloc : List (String × ℚ) → String → Option ℚ
  | [], _ => none
  | (k₁, v) :: rest, k => if k₁ = k then some v else lookupAlloc rest k

/-- The `update_allocations` handler (PUT `/api/allocations`): first
component is the error message of the 400 response when the submitted
percentages do not sum to 100 within 0.01, second is the resulting
table (unchanged on rejection). -/
def update_allocations (store : List (String × ℚ)) (entries : List (String × ℚ)) :
    Option String × List (String × ℚ) :=
  let total := (entries.map (·.2)).sum
  if |total - 100| > 1/100 then
    (some ("Allocations must sum to 100% (currently " ++ fmt1 total ++ "%)"), store)
  else
    (none, entries.foldl (fun s e => upsert s e.1 e.2) store)

/-- A JSON value of a request body (the shapes the handlers inspect). -/
inductive JVal
  | null
  | str (s : String)
  | num (q : ℚ)
  | bool (b : Bool)
deriving DecidableEq

/-- Python truthiness of a JSON value (`not v` is its negation). -/
def pyFalsy : JVal → Bool
  | .null => true
  | .str s => s = ""
  | .num q => q = 0
  | .bool b => !b

/-- Python `v == 0` for a JSON value (`False == 0` holds in Python). -/
def pyEqZero : JVal → Bool
  | .num q => q = 0
  | .bool b => !b
  | _ => false

/-- Python `data.get(f)` on a JSON object: `None` for an absent key. -/
def jGet (d : List (String × JVal)) (f : String) : JVal :=
  (d.lookup f).getD .null

/-- The required-field list of `add_holding`. -/
def requiredFields : List String := ["name", "asset_type", "cost_basis", "current_value"]

/-- The missing-field filter of `add_holding`:
`not data.get(f) and data.get(f) != 0`. -/
def missingFields (d : List (String × JVal)) : List String :=
  requiredFields.filter fun f => pyFalsy (jGet d f) && !pyEqZero (jGet d f)

/-- Outcome of `add_holding`: the 400 validation response, an unhandled
type failure (Python would raise while coercing, a 500), or the 201
response carrying the new row id together with the inserted row. -/
inductive AddResult
  | validationError (msg : String)
  | typeError
  | ok (id : Nat) (h : Holding)
deriving DecidableEq

/-- Python `(data.get(k) or "")` followed by string use: falsy values
collapse to the empty string; a truthy non-string would raise. -/
def optStr (v : JVal) : Option String :=
  if pyFalsy v then some "" else match v with | .str s => some s | _ => none

/-- Python `float(v)` on the JSON values the model covers (numeric
strings are outside the claims and conservatively fail). -/
def pyFloat : JVal → Option ℚ
  | .num q => some q
  | .bool b => some (if b then 1 else 0)
  | _ => none

/-- The `add_holding` handler (POST `/api/holdings`), given the id the
database would assign. -/
def add_holding (nextId : Nat) (d : List (String × JVal)) : AddResult :=
  if missingFields d ≠ [] then
    .validationError ("Missing required fields: " ++ pyJoin ", " (missingFields d))
  else
    match jGet d "name", optStr (jGet d "ticker"), jGet d "asset_type",
        pyFloat (jGet d "shares" |> fun v => if pyFalsy v then .num 0 else v),
        pyFloat (jGet d "cost_basis"), pyFloat (jGet d "current_value"),
        optStr (jGet d "purchase_date"), optStr (jGet d "notes") with
    | .str name, some ticker, .str atype, some shares, some cost, some value,
        some pdate, some notes =>
        .ok nextId
          { name := pyStrip name
            ticker := pyUpper (pyStrip ticker)
            asset_type := atype
            shares := shares
            cost_basis := cost
            current_value := value
            purchase_date := pdate
            notes := pyStrip notes }
    | _, _, _, _, _, _, _, _ => .typeError

/-- The fields of a PUT `/api/holdings/{id}` body: `none` is an absent
(or JSON `null`) key. -/
structure UpdateInput where
  name : Option String := none
  ticker : Option String := none
  asset_type : Option String := none
  purchase_date : Option String := none
  notes : Option String := none
  shares : Option ℚ := none
  cost_basis : Option ℚ := none
  current_value : Option ℚ := none
deriving DecidableEq

/-- Python `data.get(k) or row[k]` for a text field: a supplied empty
string is falsy and falls back to the stored value. -/
def pyOrStr (v : Option String) (dflt : String) : String :=
  match v with
  | some s => if s = "" then dflt else s
  | none => dflt

/-- The row written by `update_holding` (PUT `/api/holdings/{id}`) when
the id exists: text fields via `or`-fallback, numeric fields via an
`is not None` check. -/
def update_holding (row : Holding) (d : UpdateInput) : Holding :=
  { name := pyStrip (pyOrStr d.name row.name)
    ticker := pyUpper (pyStrip (pyOrStr d.ticker row.ticker))
    asset_type := pyOrStr d.asset_type row.asset_type
    shares := d.shares.getD row.shares
    cost_basis := d.cost_basis.getD row.cost_basis
    current_value := d.current_value.getD row.current_value
    purchase_date := pyOrStr d.purchase_date row.purchase_date
    notes := pyStrip (pyOrStr d.notes row.notes) }

/-- A value passed in the `**fields` of `audit`: the handlers pass
Python floats (`num`) and, in principle, anything else, rendered by its
default `str()` form (`other`). -/
inductive FVal
  | num (q : ℚ)
  | other (s : String)
deriving DecidableEq

/-- One `k=v` token of an audit line:
`f"{k}=${v:.2f}" if isinstance(v, float) else f"{k}={v}"`. -/
def fmtField : String × FVal → String
  | (k, .num v) => k ++ "=$" ++ fmt2 v
  | (k, .other s) => k ++ "=" ++ s

/-- The `audit` function: the text line appended to the log file, with
the timestamp (the formatter's `asctime`) passed explicitly. -/
def audit (ts action ticker name : String) (fields : List (String × FVal)) : String :=
  let ticker_col := pyLjust (if ticker = "" then "—" else ticker) 6
  let kv := pyJoin "  " (fields.map fmtField)
  ts ++ " | " ++ pyLjust action 6 ++ " | " ++ ticker_col ++ " | " ++ name ++ " | " ++ kv

/-- One parsed entry of the `/api/audit` response. -/
structure AuditEntry where
  timestamp : String
  action : String
  ticker : String
  name : String
  fields : List (String × String)
deriving DecidableEq

/-- Python `fields[k] = v` on an insertion-ordered dict: overwrite in
place or append. -/
def dictSet : List (String × String) → String → String → List (String × String)
  | [], k, v => [(k, v)]
  | (k₁, v₁) :: rest, k, v =>
      if k₁ = k then (k₁, v) :: rest else (k₁, v₁) :: dictSet rest k v

/-- The token loop of `get_audit_log`: split the fifth segment on
whitespace, keep tokens containing `=`, split each on the first `=`. -/
def parseFields (raw : String) : List (String × String) :=
  (pySplitWs raw).foldl
    (fun m tok =>
      if tok.data.contains '=' then
        let ps := pySplitCharLimit tok '=' 1
        dictSet m (ps.getD 0 "") (ps.getD 1 "")
      else m)
    []

/-- The per-line work of `get_audit_log`: `none` when the loop hits a
`continue` (blank line, or fewer than four segments). -/
def parseAuditLine (l : String) : Option AuditEntry :=
  let line := pyStrip l
  if line = "" then none
  else
    let parts := (pySplitCharLimit line '|' 4).map pyStrip
    if parts.length < 4 then none
    else some
      { timestamp := parts.getD 0 ""
        action := pyStrip (parts.getD 1 "")
        ticker := pyStrip (parts.getD 2 "")
        name := pyStrip (parts.getD 3 "")
        fields := parseFields (if parts.length = 5 then parts.getD 4 "" else "") }

/-- The accumulation loop of `get_audit_log` (entries appended in file
order). -/
def auditGo : List String → List AuditEntry → List AuditEntry
  | [], acc => acc
  | l :: rest, acc =>
      match parseAuditLine l with
      | none => auditGo rest acc
      | some e => auditGo rest (acc ++ [e])

/-- The `get_audit_log` handler (GET `/api/audit`): the file content is
`none` when the log file does not exist (`FileNotFoundError`), else the
list of its lines; the collected entries are reversed, newest first. -/
def get_audit_log (file : Option (List String)) : List AuditEntry :=
  match file with
  | none => []
  | some lines => (auditGo lines []).reverse

theorem addTo_valsum (m : List (String × ℚ)) (k : String) (v : ℚ) :
    ((addTo m k v).map (·.2)).sum = (m.map (·.2)).sum + v := by
  induction m with
  | nil => simp [addTo]
  | cons p rest ih =>
      obtain ⟨k₁, v₁⟩ := p
      by_cases h : k₁ = k <;> simp [addTo, h, ih] <;> ring

theorem byType_valsum (hs : List Holding) :
    ((byType hs).map (·.2)).sum = (hs.map (·.current_value)).sum := by
  suffices H : ∀ (m : List (String × ℚ)),
      ((hs.foldl (fun m h => addTo m h.asset_type h.current_value) m).map (·.2)).sum
        = (m.map (·.2)).sum + (hs.map (·.current_value)).sum by
    simpa [byType] using H []
  induction hs with
  | nil => intro m; simp
  | cons h rest ih =>
      intro m
      simp only [List.foldl_cons, List.map_cons, List.sum_cons]
      rw [ih, addTo_valsum]
      ring

theorem addTo_keys_mem (m : List (String × ℚ)) (k t : String) (v : ℚ) :
    t ∈ (addTo m k v).map (·.1) ↔ t = k ∨ t ∈ m.map (·.1) := by
  induction m with
  | nil => simp [addTo]
  | cons p rest ih =>
      obtain ⟨k₁, v₁⟩ := p
      by_cases h : k₁ = k
      · subst h; simp [addTo]
      · simp [addTo, h, ih]; tauto

theorem addTo_keys_nodup (m : List (String × ℚ)) (k : String) (v : ℚ)
    (hm : (m.map (·.1)).Nodup) : ((addTo m k v).map (·.1)).Nodup := by
  induction m with
  | nil => simp [addTo]
  | cons p rest ih =>
      obtain ⟨k₁, v₁⟩ := p
      simp only [List.map_cons, List.nodup_cons] at hm
      by_cases h : k₁ = k
      · subst h; simpa [addTo] using hm
      · simp only [addTo, h, if_false, List.map_cons, List.nodup_cons]
        refine ⟨fun hmem => ?_, ih hm.2⟩
        rw [addTo_keys_mem] at hmem
        rcases hmem with rfl | hmem
        · exact h rfl
        · exact hm.1 hmem

theorem byType_keys_mem (hs : List Holding) (t : String) :
    t ∈ (byType hs).map (·.1) ↔ t ∈ hs.map (·.asset_type) := by
  suffices H : ∀ (m : List (String × ℚ)),
      (t ∈ (hs.foldl (fun m h => addTo m h.asset_type h.current_value) m).map (·.1)
        ↔ t ∈ m.map (·.1) ∨ t ∈ hs.map (·.asset_type)) by
    simpa [byType] using H []
  induction hs with
  | nil => intro m; simp
  | cons h rest ih =>
      intro m
      simp only [List.foldl_cons, List.map_cons, List.mem_cons]
      rw [ih, addTo_keys_mem]
      tauto

theorem byType_keys_nodup (hs : List Holding) : ((byType hs).map (·.1)).Nodup := by
  suffices H : ∀ (m : List (String × ℚ)), (m.map (·.1)).Nodup →
      ((hs.foldl (fun m h => addTo m h.asset_type h.current_value) m).map (·.1)).Nodup by
    exact H [] (by simp)
  induction hs with
  | nil => intro m hm; simpa using hm
  | cons h rest ih =>
      intro m hm
      exact ih _ (addTo_keys_nodup m _ _ hm)

theorem lookupD_addTo (m : List (String × ℚ)) (k : String) (v : ℚ) (t : String) :
    lookupD (addTo m k v) t = lookupD m t + if k = t then v else 0 := by
  induction m with
  | nil =>
      by_cases h : k = t <;> simp [addTo, lookupD, h]
  | cons p rest ih =>
      obtain ⟨k₁, v₁⟩ := p
      by_cases h : k₁ = k
      · subst h
        by_cases h₂ : k₁ = t <;> simp [addTo, lookupD, h₂]
      · by_cases h₂ : k₁ = t
        · subst h₂
          simp [addTo, h, lookupD, Ne.symm h]
        · simp [addTo, h, lookupD, h₂, ih]

theorem byType_lookupD (hs : List Holding) (t : String) :
    lookupD (byType hs) t
      = ((hs.filter fun h => h.asset_type = t).map (·.current_value)).sum := by
  suffices H : ∀ (m : List (String × ℚ)),
      lookupD (hs.foldl (fun m h => addTo m h.asset_type h.current_value) m) t
        = lookupD m t
          + ((hs.filter fun h => h.asset_type = t).map (·.current_value)).sum by
    simpa [byType, lookupD] using H []
  induction hs with
  | nil => intro m; simp [lookupD]
  | cons h rest ih =>
      intro m
      rw [List.foldl_cons, ih, lookupD_addTo, List.filter_cons]
      by_cases ht : h.asset_type = t
      · simp only [ht, decide_true_eq_true, if_true, decide_eq_true_eq, ite_true,
          List.map_cons, List.sum_cons]
        ring
      · simp [ht]

theorem recOf_eq_specRecommendation (hs : List Holding) (t : Target) :
    recOf ((hs.map (·.current_value)).sum) (byType hs) t = specRecommendation hs t := by
  unfold recOf specRecommendation
  rw [byType_lookupD]
  by_cases h : (hs.map (·.current_value)).sum = 0 <;> simp [h]

theorem sorted_mergeSort_key {α : Type} (key : α → String) (l : List α) :
    List.Sorted (· ≤ ·) ((l.mergeSort (fun a b => decide (key a ≤ key b))).map key) := by
  rw [List.Sorted, List.pairwise_map]
  have h := @List.sorted_mergeSort _ (fun a b => decide (key a ≤ key b))
    (fun a b c h₁ h₂ => by
      simp only [decide_eq_true_eq] at h₁ h₂ ⊢
      exact le_trans h₁ h₂)
    (fun a b => by
      simp only [Bool.or_eq_true, decide_eq_true_eq]
      exact le_total (key a) (key b)) l
  exact h.imp (by simp)

theorem auditGo_eq (ls : List String) (acc : List AuditEntry) :
    auditGo ls acc = acc ++ ls.filterMap parseAuditLine := by
  induction ls generalizing acc with
  | nil => simp [auditGo]
  | cons l rest ih =>
      rw [auditGo, List.filterMap_cons]
      cases h : parseAuditLine l <;> simp [h, ih]

theorem get_audit_log_eq (lines : List String) :
    get_audit_log (some lines) = (lines.filterMap parseAuditLine).reverse := by
  rw [get_audit_log, auditGo_eq]
  simp

theorem lookupAlloc_upsert_same (m : List (String × ℚ)) (k : String) (v : ℚ) :
    lookupAlloc (upsert m k v) k = some v := by
  induction m with
  | nil => simp [upsert, lookupAlloc]
  | cons p rest ih =>
      obtain ⟨k₁, v₁⟩ := p
      by_cases h : k₁ = k <;> simp [upsert, lookupAlloc, h, ih]

theorem lookupAlloc_upsert_other (m : List (String × ℚ)) (k : String) (v : ℚ)
    (t : String) (ht : t ≠ k) : lookupAlloc (upsert m k v) t = lookupAlloc m t := by
  induction m with
  | nil => simp [upsert, lookupAlloc, Ne.symm ht]
  | cons p rest ih =>
      obtain ⟨k₁, v₁⟩ := p
      by_cases h : k₁ = k
      · subst h; simp [upsert, lookupAlloc, Ne.symm ht]
      · by_cases h₂ : k₁ = t <;> simp [upsert, lookupAlloc, h, h₂, ht, ih]

theorem foldl_upsert_notmem (k : String) :
    ∀ (entries store : List (String × ℚ)), k ∉ entries.map (·.1) →
      lookupAlloc (entries.foldl (fun s e => upsert s e.1 e.2) store) k
        = lookupAlloc store k := by
  intro entries
  induction entries with
  | nil => intro store _; simp
  | cons e rest ih =>
      intro store hk
      simp only [List.map_cons, List.mem_cons, not_or] at hk
      rw [List.foldl_cons, ih _ hk.2, lookupAlloc_upsert_other _ _ _ _ hk.1]

theorem foldl_upsert_mem (k : String) (v : ℚ) :
    ∀ (entries store : List (String × ℚ)), (entries.map (·.1)).Nodup →
      (k, v) ∈ entries →
      lookupAlloc (entries.foldl (fun s e => upsert s e.1 e.2) store) k = some v := by
  intro entries
  induction entries with
  | nil => intro store _ hmem; simp at hmem
  | cons e rest ih =>
      intro store hnd hmem
      simp only [List.map_cons, List.nodup_cons] at hnd
      rcases List.mem_cons.mp hmem with rfl | hmem
      · rw [List.foldl_cons, foldl_upsert_notmem _ rest _ hnd.1]
        exact lookupAlloc_upsert_same store k v
      · rw [List.foldl_cons]
        exact ih _ hnd.2 hmem

theorem actionOf_spec (d : ℚ) :
    (actionOf d = "Buy" ↔ 1 < d) ∧ (actionOf d = "Sell" ↔ d < -1)
      ∧ (actionOf d = "Hold" ↔ -1 ≤ d ∧ d ≤ 1) := by
  unfold actionOf
  split_ifs with h₁ h₂
  · refine ⟨by simp [h₁], ?_, ?_⟩
    · constructor
      · intro h; exact absurd h (by decide)
      · intro h; linarith
    · constructor
      · intro h; exact absurd h (by decide)
      · intro h; linarith
  · refine ⟨?_, by simp [h₂], ?_⟩
    · constructor
      · intro h; exact absurd h (by decide)
      · intro h; exact absurd h h₁
    · constructor
      · intro h; exact absurd h (by decide)
      · intro h; linarith
  · push_neg at h₁ h₂
    refine ⟨?_, ?_, by simp [h₁, h₂]⟩
    · constructor
      · intro h; exact absurd h (by decide)
      · intro h; exact absurd h (not_lt.mpr h₁)
    · constructor
      · intro h; exact absurd h (by decide)
      · intro h; exact absurd h (not_lt.mpr h₂)

theorem mem_rebalance (hs : List Holding) (ts : List Target) (r : Recommendation) :
    r ∈ (get_rebalance hs ts).recommendations
      ↔ ∃ t ∈ ts, r = recOf ((hs.map (·.current_value)).sum) (byType hs) t := by
  unfold get_rebalance
  simp only [List.mem_mergeSort, List.mem_map]
  constructor
  · rintro ⟨t, ht, rfl⟩; exact ⟨t, ht, rfl⟩
  · rintro ⟨t, ht, rfl⟩; exact ⟨t, ht, rfl⟩

/-- C1: for every holdings list, the summary's `total_value` is the sum
of the holdings' `current_value` and also the sum of the allocation
groups' `value`; `gain_loss_pct` is `(total_value - total_cost) /
total_cost * 100` when `total_cost` is nonzero and exactly `0` when it
is zero (no division is ever attempted on zero); the allocation has one
group per asset type present, sorted ascending by `asset_type`. -/
theorem portfolio_summary_correct (hs : List Holding) :
    (portfolio_summary hs).total_value = (hs.map (·.current_value)).sum
    ∧ ((portfolio_summary hs).allocation.map (·.value)).sum = (portfolio_summary hs).total_value
    ∧ ((portfolio_summary hs).total_cost ≠ 0 →
        (portfolio_summary hs).gain_loss_pct
          = ((portfolio_summary hs).total_value - (portfolio_summary hs).total_cost)
              / (portfolio_summary hs).total_cost * 100)
    ∧ ((portfolio_summary hs).total_cost = 0 → (portfolio_summary hs).gain_loss_pct = 0)
    ∧ List.Sorted (· ≤ ·) ((portfolio_summary hs).allocation.map (·.asset_type))
    ∧ ((portfolio_summary hs).allocation.map (·.asset_type)).Nodup
    ∧ (∀ t, t ∈ (portfolio_summary hs).allocation.map (·.asset_type)
        ↔ t ∈ hs.map (·.asset_type)) := by
  have hperm : ((byType hs).mergeSort fun a b => decide (a.1 ≤ b.1)).Perm (byType hs) :=
    List.mergeSort_perm _ _
  have hkeys : (portfolio_summary hs).allocation.map (·.asset_type)
      = ((byType hs).mergeSort fun a b => decide (a.1 ≤ b.1)).map (·.1) := by
    simp only [portfolio_summary, List.map_map]
    rfl
  refine ⟨rfl, ?_, ?_, ?_, ?_, ?_, ?_⟩
  · have hvals : (portfolio_summary hs).allocation.map (·.value)
        = ((byType hs).mergeSort fun a b => decide (a.1 ≤ b.1)).map (·.2) := by
      simp only [portfolio_summary, List.map_map]
      rfl
    rw [hvals, (hperm.map (·.2)).sum_eq, byType_valsum]
    rfl
  · intro h
    simp only [portfolio_summary] at h ⊢
    rw [if_pos h]
  · intro h
    simp only [portfolio_summary] at h ⊢
    rw [if_neg (by simp [h])]
  · rw [hkeys]
    exact sorted_mergeSort_key (·.1) (byType hs)
  · rw [hkeys]
    exact ((hperm.map (·.1)).nodup_iff).mpr (byType_keys_nodup hs)
  · intro t
    rw [hkeys, (hperm.map (·.1)).mem_iff]
    exact byType_keys_mem hs t

/-- Witness for C1 at a concrete two-holding portfolio. -/
theorem portfolio_summary_correct_witness :
    (portfolio_summary
        [{ name := "Apple Inc.", ticker := "AAPL", asset_type := "stock", shares := 10,
           cost_basis := 50, current_value := 80, purchase_date := "", notes := "" },
         { name := "T-Bond", ticker := "", asset_type := "bond", shares := 1,
           cost_basis := 50, current_value := 45, purchase_date := "", notes := "" }]).total_cost ≠ 0
    ∧ (portfolio_summary
        [{ name := "Apple Inc.", ticker := "AAPL", asset_type := "stock", shares := 10,
           cost_basis := 50, current_value := 80, purchase_date := "", notes := "" },
         { name := "T-Bond", ticker := "", asset_type := "bond", shares := 1,
           cost_basis := 50, current_value := 45, purchase_date := "", notes := "" }]).gain_loss_pct
        = ((portfolio_summary
        [{ name := "Apple Inc.", ticker := "AAPL", asset_type := "stock", shares := 10,
           cost_basis := 50, current_value := 80, purchase_date := "", notes := "" },
         { name := "T-Bond", ticker := "", asset_type := "bond", shares := 1,
           cost_basis := 50, current_value := 45, purchase_date := "", notes := "" }]).total_value
            - (portfolio_summary
        [{ name := "Apple Inc.", ticker := "AAPL", asset_type := "stock", shares := 10,
           cost_basis := 50, current_value := 80, purchase_date := "", notes := "" },
         { name := "T-Bond", ticker := "", asset_type := "bond", shares := 1,
           cost_basis := 50, current_value := 45, purchase_date := "", notes := "" }]).total_cost)
            / (portfolio_summary
        [{ name := "Apple Inc.", ticker := "AAPL", asset_type := "stock", shares := 10,
           cost_basis := 50, current_value := 80, purchase_date := "", notes := "" },
         { name := "T-Bond", ticker := "", asset_type := "bond", shares := 1,
           cost_basis := 50, current_value := 45, purchase_date := "", notes := "" }]).total_cost * 100 :=
  ⟨by norm_num [portfolio_summary],
    (portfolio_summary_correct _).2.2.1 (by norm_num [portfolio_summary])⟩

/-- C2: for every holdings list and non-empty target list, `rebalance`
produces exactly one recommendation per target row, each equal to the
spec's row (per-type current value as a filtered sum, `target_value =
total_value * target_percentage / 100`, `difference = target_value -
current_value`, `current_pct = 0` when `total_value = 0`); a targeted
type with no holdings appears with `current_value = 0`, a held type
with no target row does not appear; rows sorted by `asset_type`. -/
theorem rebalance_matches_targets (hs : List Holding) (ts : List Target) (hne : ts ≠ []) :
    ((get_rebalance hs ts).recommendations).Perm (ts.map (specRecommendation hs))
    ∧ (get_rebalance hs ts).recommendations.length = ts.length
    ∧ List.Sorted (· ≤ ·) ((get_rebalance hs ts).recommendations.map (·.asset_type))
    ∧ (∀ t ∈ ts, (∀ h ∈ hs, h.asset_type ≠ t.asset_type) →
        ∃ r ∈ (get_rebalance hs ts).recommendations,
          r.asset_type = t.asset_type ∧ r.current_value = 0)
    ∧ (∀ r ∈ (get_rebalance hs ts).recommendations,
        r.asset_type ∈ ts.map (·.asset_type)) := by
  have hfun : recOf ((hs.map (·.current_value)).sum) (byType hs) = specRecommendation hs :=
    funext (recOf_eq_specRecommendation hs)
  have hbase : ((ts.map (recOf ((hs.map (·.current_value)).sum) (byType hs))).mergeSort
      fun a b => decide (a.asset_type ≤ b.asset_type)).Perm
      (ts.map (specRecommendation hs)) := by
    rw [hfun]
    exact List.mergeSort_perm _ _
  have hperm : ((get_rebalance hs ts).recommendations).Perm
      (ts.map (specRecommendation hs)) := hbase
  refine ⟨hperm, ?_, ?_, ?_, ?_⟩
  · rw [hperm.length_eq, List.length_map]
  · exact sorted_mergeSort_key (fun r : Recommendation => r.asset_type)
      (ts.map (recOf ((hs.map (·.current_value)).sum) (byType hs)))
  · intro t ht hnone
    refine ⟨specRecommendation hs t, ?_, rfl, ?_⟩
    · exact hperm.mem_iff.mpr (List.mem_map_of_mem _ ht)
    · show ((hs.filter fun h => h.asset_type = t.asset_type).map (·.current_value)).sum = 0
      have hnil : hs.filter (fun h => h.asset_type = t.asset_type) = [] := by
        rw [List.filter_eq_nil_iff]
        intro h hh
        simpa using hnone h hh
      rw [hnil]
      simp
  · intro r hr
    obtain ⟨t, ht, heq⟩ := List.mem_map.mp (hperm.mem_iff.mp hr)
    rw [← heq]
    exact List.mem_map.mpr ⟨t, ht, rfl⟩

/-- Witness for C2 at an empty portfolio and two target rows. -/
theorem rebalance_matches_targets_witness :
    ([⟨"stock", 60⟩, ⟨"bond", 40⟩] : List Target) ≠ []
    ∧ ((get_rebalance [] [⟨"stock", 60⟩, ⟨"bond", 40⟩]).recommendations).Perm
        (([⟨"stock", 60⟩, ⟨"bond", 40⟩] : List Target).map (specRecommendation [])) :=
  ⟨by simp, (rebalance_matches_targets [] _ (by simp)).1⟩

/-- C3: in every rebalance recommendation, the action is `"Buy"` iff
`difference > 1`, `"Sell"` iff `difference < -1`, `"Hold"` otherwise;
concretely the classifier sends 5 to Buy, -5 to Sell, and 0.5, -0.5, 1
and -1 all to Hold (the band at plus or minus 1 is exclusive). -/
theorem rebalance_action_classification :
    (∀ (hs : List Holding) (ts : List Target),
        ∀ r ∈ (get_rebalance hs ts).recommendations,
          (r.action = "Buy" ↔ 1 < r.difference)
          ∧ (r.action = "Sell" ↔ r.difference < -1)
          ∧ (r.action = "Hold" ↔ -1 ≤ r.difference ∧ r.difference ≤ 1))
    ∧ actionOf 5 = "Buy" ∧ actionOf (-5) = "Sell"
    ∧ actionOf (1/2) = "Hold" ∧ actionOf (-(1/2)) = "Hold"
    ∧ actionOf 1 = "Hold" ∧ actionOf (-1) = "Hold" := by
  refine ⟨?_, ?_, ?_, ?_, ?_, ?_, ?_⟩
  · intro hs ts r hr
    obtain ⟨t, ht, rfl⟩ := (mem_rebalance hs ts r).mp hr
    exact actionOf_spec _
  all_goals norm_num [actionOf]

/-- Witness for C3 at a single-target rebalance over no holdings. -/
theorem rebalance_action_classification_witness :
    recOf ((([] : List Holding).map (·.current_value)).sum) (byType [])
        ⟨"stock", 60⟩ ∈ (get_rebalance [] [⟨"stock", 60⟩]).recommendations
    ∧ ((recOf ((([] : List Holding).map (·.current_value)).sum) (byType [])
          ⟨"stock", 60⟩).action = "Buy"
        ↔ 1 < (recOf ((([] : List Holding).map (·.current_value)).sum) (byType [])
          ⟨"stock", 60⟩).difference) := by
  have hmem : recOf ((([] : List Holding).map (·.current_value)).sum) (byType [])
      ⟨"stock", 60⟩ ∈ (get_rebalance [] [⟨"stock", 60⟩]).recommendations := by
    show _ ∈ ([recOf _ _ _].mergeSort _)
    rw [List.mem_mergeSort]
    exact List.mem_singleton.mpr rfl
  exact ⟨hmem, (rebalance_action_classification.1 [] [⟨"stock", 60⟩] _ hmem).1⟩

/-- C4: an allocations update is rejected with the 400 error exactly
when the submitted percentages are off 100 by more than 0.01; the error
message carries the total formatted to one decimal (99 prints as
`99.0`), a rejected update leaves the table untouched, and a
submission of 60+30+5+5 = 100 is accepted. -/
theorem update_allocations_spec (store entries : List (String × ℚ)) :
    ((update_allocations store entries).1.isSome
      ↔ |(entries.map (·.2)).sum - 100| > 1/100)
    ∧ ((update_allocations store entries).1.isSome
        → (update_allocations store entries).2 = store)
    ∧ (update_allocations store [("a", 50), ("b", 49)]).1
        = some ("Allocations must sum to 100% (currently " ++ fmt1 99 ++ "%)")
    ∧ fmt1 99 = "99.0"
    ∧ (update_allocations store [("a", 60), ("b", 30), ("c", 5), ("d", 5)]).1 = none := by
  refine ⟨?_, ?_, ?_, ?_, ?_⟩
  · simp only [update_allocations]
    split_ifs with h
    · simp only [Option.isSome_some, true_iff]
      exact h
    · simp only [Option.isSome_none, Bool.false_eq_true, false_iff, not_lt, gt_iff_lt]
      exact not_lt.mp h
  · simp only [update_allocations]
    split_ifs with h <;> simp [h]
  · simp only [update_allocations]
    rw [if_pos (by norm_num)]
    norm_num
  · have h990 : rne ((99 : ℚ) * 10) = 990 := by
      unfold rne
      norm_num
    simp [fmt1, fmt1nn, h990]
    rfl
  · simp only [update_allocations]
    rw [if_neg (by norm_num)]

/-- Witness for C4: a rejected update (sum 99) leaves a one-row table
unchanged. -/
theorem update_allocations_spec_witness :
    (update_allocations [("stock", 60)] [("a", 50), ("b", 49)]).1.isSome = true
    ∧ (update_allocations [("stock", 60)] [("a", 50), ("b", 49)]).2 = [("stock", 60)] := by
  have h : (update_allocations [("stock", 60)] [("a", 50), ("b", 49)]).1.isSome = true := by
    simp only [update_allocations]
    rw [if_pos (by norm_num)]
    rfl
  exact ⟨h, (update_allocations_spec [("stock", 60)] [("a", 50), ("b", 49)]).2.1 h⟩

theorem missing_pred_iff (v : JVal) :
    (pyFalsy v && !pyEqZero v) = true ↔ v = .null ∨ v = .str "" := by
  cases v <;> simp [pyFalsy, pyEqZero]

theorem missingFields_ne_nil_iff (d : List (String × JVal)) :
    missingFields d ≠ [] ↔
      ∃ f ∈ requiredFields, jGet d f = .null ∨ jGet d f = .str "" := by
  unfold missingFields
  rw [Ne, List.filter_eq_nil_iff]
  push_neg
  constructor
  · rintro ⟨f, hf, hp⟩
    exact ⟨f, hf, (missing_pred_iff _).mp (by simpa using hp)⟩
  · rintro ⟨f, hf, hp⟩
    exact ⟨f, hf, by simpa using (missing_pred_iff _).mpr hp⟩

theorem add_holding_validationError_iff (n : Nat) (d : List (String × JVal)) :
    (∃ msg, add_holding n d = .validationError msg) ↔ missingFields d ≠ [] := by
  constructor
  · rintro ⟨msg, hmsg⟩
    intro hnil
    unfold add_holding at hmsg
    rw [if_neg (by simp [hnil])] at hmsg
    split at hmsg <;> exact AddResult.noConfusion hmsg
  · intro hne
    refine ⟨"Missing required fields: " ++ pyJoin ", " (missingFields d), ?_⟩
    unfold add_holding
    rw [if_pos hne]

/-- C5 as stated is false: a required field supplied as the empty
string is present in the request body, yet `add_holding` rejects the
request as missing that field (`not data.get(f)` is true for `""` and
`"" != 0`), so rejection is not equivalent to absence. -/
theorem add_holding_counterexample :
    add_holding 1
        [("name", JVal.str ""), ("asset_type", JVal.str "stock"),
         ("cost_basis", JVal.num 0), ("current_value", JVal.num 0)]
      = .validationError "Missing required fields: name"
    ∧ ∀ f ∈ requiredFields,
        (List.lookup f
            [("name", JVal.str ""), ("asset_type", JVal.str "stock"),
             ("cost_basis", JVal.num 0), ("current_value", JVal.num 0)]).isSome = true := by
  decide

/-- C5 (amended): creating a holding fails with the 400 error listing
every missing field iff some required field is absent, null, or
supplied as the empty string (the other falsy-but-zero-equal values 0,
0.0 and false are not counted missing); a well-typed body with
`cost_basis = 0` and `current_value = 0` succeeds with 201 and the new
id. -/
theorem add_holding_validation (n : Nat) (d : List (String × JVal)) :
    ((∃ msg, add_holding n d = .validationError msg)
      ↔ ∃ f ∈ requiredFields, jGet d f = .null ∨ jGet d f = .str "")
    ∧ (missingFields d ≠ [] →
        add_holding n d = .validationError
          ("Missing required fields: " ++ pyJoin ", " (missingFields d)))
    ∧ add_holding n [("name", JVal.str "Cash"), ("asset_type", JVal.str "cash"),
        ("cost_basis", JVal.num 0), ("current_value", JVal.num 0)]
      = .ok n ({ name := "Cash", ticker := "", asset_type := "cash", shares := 0,
                 cost_basis := 0, current_value := 0, purchase_date := "",
                 notes := "" } : Holding) := by
  refine ⟨?_, ?_, ?_⟩
  · rw [add_holding_validationError_iff]
    exact missingFields_ne_nil_iff d
  · intro hne
    unfold add_holding
    rw [if_pos hne]
  · have hm : missingFields [("name", JVal.str "Cash"), ("asset_type", JVal.str "cash"),
        ("cost_basis", JVal.num 0), ("current_value", JVal.num 0)] = [] := by decide
    unfold add_holding
    rw [if_neg (by simp [hm])]
    rfl

/-- Witness for C5 (amended) at a body missing every field but one. -/
theorem add_holding_validation_witness :
    missingFields [("asset_type", JVal.str "stock")] ≠ []
    ∧ add_holding 3 [("asset_type", JVal.str "stock")]
        = .validationError ("Missing required fields: "
            ++ pyJoin ", " (missingFields [("asset_type", JVal.str "stock")])) :=
  ⟨by decide, (add_holding_validation 3 _).2.1 (by decide)⟩

/-- C10 as stated is false: supplying a whitespace-only string for a
text field is truthy in Python, so it is used and then stripped to the
empty string — the stored name is cleared, which the claim says is
impossible. -/
theorem update_holding_counterexample :
    (update_holding
        { name := "Apple Inc.", ticker := "AAPL", asset_type := "stock", shares := 10,
          cost_basis := 100, current_value := 150, purchase_date := "", notes := "" }
        { name := some " " }).name = ""
    ∧ ({ name := "Apple Inc.", ticker := "AAPL", asset_type := "stock", shares := 10,
         cost_basis := 100, current_value := 150, purchase_date := "",
         notes := "" } : Holding).name ≠ "" := by
  decide

/-- C10 (amended): in an update, a text field supplied as the empty
string behaves exactly like an omitted field (the stored value is
kept), a numeric field supplied as 0 is applied, and a numeric field
cannot be set to null; however a text field can still end up empty:
a whitespace-only string is truthy and is stripped to `""` for the
trimmed fields (name, ticker, notes). -/
theorem update_holding_partial_semantics (row : Holding) (d : UpdateInput) :
    update_holding row { d with name := some "" } = update_holding row { d with name := none }
    ∧ update_holding row { d with ticker := some "" }
        = update_holding row { d with ticker := none }
    ∧ update_holding row { d with asset_type := some "" }
        = update_holding row { d with asset_type := none }
    ∧ update_holding row { d with purchase_date := some "" }
        = update_holding row { d with purchase_date := none }
    ∧ update_holding row { d with notes := some "" }
        = update_holding row { d with notes := none }
    ∧ (update_holding row { d with shares := some 0 }).shares = 0
    ∧ (update_holding row { d with cost_basis := some 0 }).cost_basis = 0
    ∧ (update_holding row { d with current_value := some 0 }).current_value = 0
    ∧ (update_holding row { d with name := some " " }).name = "" := by
  refine ⟨?_, ?_, ?_, ?_, ?_, rfl, rfl, rfl, ?_⟩
  · simp [update_holding, pyOrStr]
  · simp [update_holding, pyOrStr]
  · simp [update_holding, pyOrStr]
  · simp [update_holding, pyOrStr]
  · simp [update_holding, pyOrStr]
  · show pyStrip (pyOrStr (some " ") row.name) = ""
    have h : pyOrStr (some " ") row.name = " " := by simp [pyOrStr]
    rw [h]
    decide

/-- C7: a missing log file reads back as the empty sequence; the
entries are the per-line parses in reverse append order (newest
first); a line whose split yields fewer than four segments is silently
skipped (concretely, a pipe-free line parses to nothing). -/
theorem get_audit_log_spec :
    get_audit_log none = []
    ∧ (∀ lines, get_audit_log (some lines) = (lines.filterMap parseAuditLine).reverse)
    ∧ (∀ l, (pySplitCharLimit (pyStrip l) '|' 4).length < 4 → parseAuditLine l = none)
    ∧ parseAuditLine "garbage line with no pipes" = none := by
  refine ⟨rfl, get_audit_log_eq, ?_, by decide⟩
  intro l hlen
  simp only [parseAuditLine]
  by_cases hempty : pyStrip l = ""
  · simp [hempty]
  · rw [if_neg hempty, if_pos (by simpa using hlen)]

/-- Witness for C7 at a concrete malformed line. -/
theorem get_audit_log_spec_witness :
    (pySplitCharLimit (pyStrip "no pipes here") '|' 4).length < 4
    ∧ parseAuditLine "no pipes here" = none :=
  ⟨by decide, get_audit_log_spec.2.2.1 "no pipes here" (by decide)⟩

theorem fmt2_11200 : fmt2 11200 = "11200.00" := by
  have h : rne ((11200 : ℚ) * 100) = 1120000 := by unfold rne; norm_num
  simp only [fmt2, fmt2nn, h]
  rw [if_neg (by norm_num)]
  decide

theorem fmt2_7500 : fmt2 7500 = "7500.00" := by
  have h : rne ((7500 : ℚ) * 100) = 750000 := by unfold rne; norm_num
  simp only [fmt2, fmt2nn, h]
  rw [if_neg (by norm_num)]
  decide

/-- C6: after appending the ADD line for AAPL / Apple Inc. with
`current_value = 11200.00` and `cost_basis = 7500.00` to any existing
log, reading the log back yields that entry first (newest first), with
action `ADD`, ticker `AAPL`, name `Apple Inc.`, and the two fields
rendered `$11200.00` and `$7500.00`. -/
theorem audit_roundtrip (lines : List String) :
    (get_audit_log (some (lines
        ++ [audit "2026-02-21 14:30:00" "ADD" "AAPL" "Apple Inc."
              [("current_value", FVal.num 11200), ("cost_basis", FVal.num 7500)]]))).head?
      = some { timestamp := "2026-02-21 14:30:00", action := "ADD", ticker := "AAPL",
               name := "Apple Inc.",
               fields := [("current_value", "$11200.00"), ("cost_basis", "$7500.00")] } := by
  have hline : audit "2026-02-21 14:30:00" "ADD" "AAPL" "Apple Inc."
      [("current_value", FVal.num 11200), ("cost_basis", FVal.num 7500)]
      = "2026-02-21 14:30:00 | ADD    | AAPL   | Apple Inc. | current_value=$11200.00  cost_basis=$7500.00" := by
    simp only [audit, List.map_cons, List.map_nil, fmtField, fmt2_11200, fmt2_7500]
    decide
  have hparse : parseAuditLine
      "2026-02-21 14:30:00 | ADD    | AAPL   | Apple Inc. | current_value=$11200.00  cost_basis=$7500.00"
      = some { timestamp := "2026-02-21 14:30:00", action := "ADD", ticker := "AAPL",
               name := "Apple Inc.",
               fields := [("current_value", "$11200.00"), ("cost_basis", "$7500.00")] } := by
    decide
  rw [get_audit_log_eq, hline, List.filterMap_append]
  simp [hparse]

theorem digitChar_isDigit : ∀ n, n < 10 → (Nat.digitChar n).isDigit = true := by
  decide

theorem fmt2nn_shape (q : ℚ) :
    ∃ ip d₁ d₂, fmt2nn q = ip ++ String.mk ['.', d₁, d₂]
      ∧ d₁.isDigit = true ∧ d₂.isDigit = true := by
  refine ⟨toString ((rne (q * 100)).natAbs / 100),
    Nat.digitChar ((rne (q * 100)).natAbs / 10 % 10),
    Nat.digitChar ((rne (q * 100)).natAbs % 10), ?_, ?_, ?_⟩
  · simp only [fmt2nn]
    rw [String.append_assoc]
    congr 1
  · exact digitChar_isDigit _ (Nat.mod_lt _ (by norm_num))
  · exact digitChar_isDigit _ (Nat.mod_lt _ (by norm_num))

/-- C8: every audit line is the timestamp, the action padded to width
6, the ticker (an em-dash placeholder when empty) padded to width 6,
the name, and the `k=v` tokens joined by two spaces, in the caller's
field order; a float field renders as `$` plus the value with exactly
two decimal digits, any other field by its plain string form. -/
theorem audit_line_format (ts action ticker name : String)
    (fields : List (String × FVal)) :
    audit ts action ticker name fields
      = ts ++ " | " ++ pyLjust action 6 ++ " | "
          ++ pyLjust (if ticker = "" then "—" else ticker) 6 ++ " | " ++ name
          ++ " | " ++ pyJoin "  " (fields.map fmtField)
    ∧ (∀ k q, fmtField (k, .num q) = k ++ "=$" ++ fmt2 q)
    ∧ (∀ k s, fmtField (k, .other s) = k ++ "=" ++ s)
    ∧ (∀ q, ∃ ip d₁ d₂, fmt2 q = ip ++ String.mk ['.', d₁, d₂]
        ∧ d₁.isDigit = true ∧ d₂.isDigit = true) := by
  refine ⟨rfl, fun k q => rfl, fun k s => rfl, ?_⟩
  intro q
  by_cases hq : q < 0
  · obtain ⟨ip, d₁, d₂, heq, h₁, h₂⟩ := fmt2nn_shape (-q)
    refine ⟨"-" ++ ip, d₁, d₂, ?_, h₁, h₂⟩
    simp only [fmt2, if_pos hq, heq, String.append_assoc]
  · obtain ⟨ip, d₁, d₂, heq, h₁, h₂⟩ := fmt2nn_shape q
    refine ⟨ip, d₁, d₂, ?_, h₁, h₂⟩
    simp only [fmt2, if_neg hq, heq]

/-- C9: a successful allocations update upserts exactly the submitted
entries — each submitted asset type afterwards maps to its submitted
percentage — and every row whose asset type was not submitted is left
exactly as it was (in particular it is not deleted). -/
theorem update_allocations_upsert_frame (store entries : List (String × ℚ))
    (hnd : (entries.map (·.1)).Nodup)
    (hok : |(entries.map (·.2)).sum - 100| ≤ 1/100) :
    (∀ kv ∈ entries, lookupAlloc (update_allocations store entries).2 kv.1 = some kv.2)
    ∧ (∀ k, k ∉ entries.map (·.1) →
        lookupAlloc (update_allocations store entries).2 k = lookupAlloc store k) := by
  have h2 : (update_allocations store entries).2
      = entries.foldl (fun s e => upsert s e.1 e.2) store := by
    simp only [update_allocations]
    rw [if_neg (not_lt.mpr hok)]
  constructor
  · intro kv hkv
    rw [h2]
    exact foldl_upsert_mem kv.1 kv.2 entries store hnd hkv
  · intro k hk
    rw [h2]
    exact foldl_upsert_notmem k entries store hk

/-- Witness for C9: updating stock to 70 and adding etf 30 leaves the
untouched bond row intact. -/
theorem update_allocations_upsert_frame_witness :
    ((([("stock", 70), ("etf", 30)] : List (String × ℚ)).map (·.1)).Nodup
        ∧ |(([("stock", 70), ("etf", 30)] : List (String × ℚ)).map (·.2)).sum - 100| ≤ 1/100)
    ∧ ("bond" ∉ (([("stock", 70), ("etf", 30)] : List (String × ℚ)).map (·.1))
        ∧ lookupAlloc (update_allocations [("stock", 60), ("bond", 40)]
              [("stock", 70), ("etf", 30)]).2 "bond"
            = lookupAlloc [("stock", 60), ("bond", 40)] "bond") := by
  have hnd : (([("stock", 70), ("etf", 30)] : List (String × ℚ)).map (·.1)).Nodup := by
    decide
  have hok : |(([("stock", 70), ("etf", 30)] : List (String × ℚ)).map (·.2)).sum - 100|
      ≤ 1/100 := by
    norm_num
  have hb : "bond" ∉ (([("stock", 70), ("etf", 30)] : List (String × ℚ)).map (·.1)) := by
    decide
  exact ⟨⟨hnd, hok⟩, hb,
    (update_allocations_upsert_frame [("stock", 60), ("bond", 40)]
        [("stock", 70), ("etf", 30)] hnd hok).2 "bond" hb⟩
